import Mathlib

/-!
Verification of the docker-diff tool (src/main.py, src/utils/tar_utils.py)
against its specification.

Embedding conventions, spelled out once here:

* A TAR archive is its member list in native order (`tarfile.getmembers()`).
  A member's `name` is stored as the list of its `/`-separated segments:
  Python's `s.split("/")` is a bijection from path strings onto nonempty
  lists of slash-free segments, so `file_tar.name.split("/")` is the stored
  list itself, `subfiles[0]` is its head, and string equality of two names
  is equality of the segment lists.  `len(file_tar.name.split("/")) < 2`
  becomes `name.length < 2`.
* `size` is the member's byte size (a non-negative integer); the reported
  transfer total accumulates `size / 1e6` exactly, in `ℚ` (the Python float
  rounding is not modelled, only which entries are summed and the decimal
  division).
* A member's retrievable data is `content : Option Content`; `none` models a
  member whose data cannot be read back (`tar.extractfile`/the subsequent
  copy raising).  File bytes that are a JSON document are carried in parsed
  form (`Content.json j`), any other bytes as `Content.raw s`; `json.load`
  succeeds exactly on the former and returns `j`.
* Filesystem side effects (paths on disk, the log stream) are not modelled:
  the diff archive, the side-car record and the merge output are the values
  the functions below return, and a warning is recorded as the name of the
  entry the logged message names.
-/

/-- JSON values, with array and object spines written out so that equality
is derivable.  `arrCons h t` is the array with head `h` and tail spine `t`;
`objCons k v r` is the object binding `k` to `v` in front of spine `r`. -/
inductive Json where
  | null
  | bool (b : Bool)
  | num (n : Int)
  | str (s : String)
  | arrNil
  | arrCons (hd tl : Json)
  | objNil
  | objCons (key : String) (val rest : Json)
deriving DecidableEq

/-- Bytes of a file: either a JSON document (stored parsed) or raw bytes. -/
inductive Content where
  | raw (s : String)
  | json (j : Json)
deriving DecidableEq

/-- One TAR member (`tarfile.TarInfo` plus its retrievable data): the path
as its slash-separated segments, the directory flag, the byte size, and the
data (`none` = reading the data raises). -/
structure TarEntry where
  name : List String
  isdir : Bool
  size : Nat
  content : Option Content
deriving DecidableEq

/-- Builds the spine of a JSON array from a list of values. -/
def jsonArrOfList : List Json → Json
  | [] => Json.arrNil
  | j :: js => Json.arrCons j (jsonArrOfList js)

/-- Reads an array spine back as a list (`none` on non-arrays): how Python
iterates a JSON list. -/
def Json.arrToList : Json → Option (List Json)
  | .arrNil => some []
  | .arrCons h t => (arrToList t).map (h :: ·)
  | _ => none

/-- Python's `manifest[0]`: the first element of a JSON array; any other
shape (or an empty array) raises, modelled as `none`. -/
def Json.index0 : Json → Option Json
  | .arrCons h _ => some h
  | _ => none

/-- Python's `obj[k]` on a parsed JSON object.  `json.load` keeps the last
binding of a repeated key, so the lookup prefers later bindings. -/
def Json.lookupField (k : String) : Json → Option Json
  | .objCons key v rest =>
    match lookupField k rest with
    | some r => some r
    | none => if key = k then some v else none
  | _ => none

/-- The values Python's `len` accepts (list, dict, str); `len` on a number,
boolean or null raises `TypeError`. -/
def Json.hasLen : Json → Bool
  | .arrNil => true
  | .arrCons _ _ => true
  | .objNil => true
  | .objCons _ _ _ => true
  | .str _ => true
  | _ => false

/-- An array spine whose elements are all strings, as the string list;
`none` otherwise (iterating it with `layer.split` would raise). -/
def Json.asStrList : Json → Option (List String)
  | .arrNil => some []
  | .arrCons (.str s) t => (asStrList t).map (s :: ·)
  | _ => none

/-- `manifest[0]['Layers']` of a parsed manifest document. -/
def manifest0Layers (j : Json) : Option Json :=
  j.index0.bind (Json.lookupField ("Layers"))

/-- `json.load` on file bytes: succeeds exactly when the bytes are a JSON
document. -/
def json_load : Content → Option Json
  | .raw _ => none
  | .json j => some j

/-- Python's `s.split("/")[0]` on a layer path string: the characters
before the first `/` (`split` always yields a nonempty list). -/
def firstSegChars : List Char → List Char
  | [] => []
  | c :: cs => if c = '/' then [] else c :: firstSegChars cs

/-- First `/`-separated segment of a path string. -/
def pyFirstSeg (s : String) : String :=
  (firstSegChars s.toList).asString

/-- The extracted tree of an archive, as the partial map from file paths to
file data.  Extraction writes members in order, so a repeated path keeps the
last member's data; directories contribute no file.  This models
`extract_tar` (src/utils/tar_utils.py lines 8-10) at the granularity the
claims need: archives whose members collide as directory-versus-file at the
same path are outside the model. -/
def extractTree (es : List TarEntry) (p : List String) : Option Content :=
  ((es.filter (fun e => !e.isdir && e.name == p)).getLast?).bind (·.content)

/-- `extract_layers_info` (src/utils/tar_utils.py lines 12-25).  Extracts
the archive and reads `manifest.json`: absent file gives the empty dict
(`.ok none`, an error is logged); a non-JSON file, a manifest without
`manifest[0]['Layers']`, or a `Layers` value that is not an array of
strings raises out of the function (`.error ()`).  Otherwise the returned
dict's `Layers` value (`.ok (some ids)`) holds each layer path's first
segment.  `os.path.exists` is modelled as file existence in the extracted
tree (see `extractTree`); Python would also accept a `Layers` value that is
a string or a dict (iteration over characters or keys), a degenerate case
no claim exercises and outside the model. -/
def extract_layers_info (image_tar : List TarEntry) : Except Unit (Option (List String)) :=
  match extractTree image_tar [("manifest.json")] with
  | none => .ok none
  | some c =>
    match json_load c with
    | none => .error ()
    | some j =>
      match manifest0Layers j with
      | none => .error ()
      | some v =>
        match v.asStrList with
        | none => .error ()
        | some layers => .ok (some (layers.map pyFirstSeg))

/-- Root segment of an entry's path, `file_tar.name.split('/')[0]`
(src/main.py lines 49-50). -/
def rootSeg (e : TarEntry) : String := e.name.headD ("")

/-- The entries the classification step looks at (src/main.py line 40):
directories whose name has fewer than two segments.  For such an entry the
whole name string is its root segment, so the membership tests below use
`rootSeg`. -/
def isTopDir (e : TarEntry) : Bool :=
  e.isdir && decide (e.name.length < 2)

/-- The second inclusion test of src/main.py line 51: a loose top-level
file, i.e. single path segment and not a directory. -/
def isLooseRootFile (e : TarEntry) : Bool :=
  e.name.length == 1 && !e.isdir

/-- Per-entry megabyte figure the summary accumulates (src/main.py line
53): `file_tar.size / 1e6`, decimal. -/
def sizeMB (e : TarEntry) : ℚ := (e.size : ℚ) / 1000000

/-- State of the single pass of `mode_1_create_diff` over the new archive
(src/main.py lines 34-37): the selected entries, the set of New top-level
names, the reused-layer list, and the running transfer total in megabytes. -/
structure DiffState where
  files_to_add : List TarEntry
  filenames_to_add : List String
  kept_layers : List String
  total_size : ℚ

/-- Adding to the Python set `filenames_to_add`: only membership and size
are ever observed, so the set is a duplicate-free list. -/
def insertName (n : String) (s : List String) : List String :=
  if s.contains n then s else s ++ [n]

/-- One iteration of the loop of `mode_1_create_diff` (src/main.py lines
39-53).  First the classification step: a directory whose name has fewer
than two segments is looked up in `base_layers["Layers"]` — reused names go
to `kept_layers`, others into `filenames_to_add`; when `base_layers` is the
empty dict the lookup raises `KeyError`, which is caught, logged and
skipped (`base_layers = none`).  Then the inclusion step, against the
already-updated name set: an entry is selected when its root segment is in
`filenames_to_add` or it is a single-segment non-directory, and its
`size / 1e6` is added to the total. -/
def diffStep (base_layers : Option (List String)) (st : DiffState) (e : TarEntry) : DiffState :=
  let st1 : DiffState :=
    if isTopDir e then
      match base_layers with
      | none => st
      | some layers =>
        if layers.contains (rootSeg e) then
          { st with kept_layers := st.kept_layers ++ [rootSeg e] }
        else
          { st with filenames_to_add := insertName (rootSeg e) st.filenames_to_add }
    else st
  if st1.filenames_to_add.contains (rootSeg e) || isLooseRootFile e then
    { st1 with files_to_add := st1.files_to_add ++ [e],
               total_size := st1.total_size + sizeMB e }
  else st1

/-- The loop over all members of the new archive. -/
def diffLoop (base_layers : Option (List String)) : DiffState → List TarEntry → DiffState
  | st, [] => st
  | st, e :: es => diffLoop base_layers (diffStep base_layers st e) es

/-- The selection pass of `mode_1_create_diff` from the empty state. -/
def mode_1_select (base_layers : Option (List String)) (es : List TarEntry) : DiffState :=
  diffLoop base_layers { files_to_add := [], filenames_to_add := [],
                         kept_layers := [], total_size := 0 } es

/-- `tar.extractfile(name)` resolves a name in the source archive to its
member; tarfile takes the last occurrence of a repeated name. -/
def lookupMember (src : List TarEntry) (n : List String) : Option TarEntry :=
  (src.filter (fun m => m.name == n)).getLast?

/-- The writing loop of `mode_1_create_diff` (src/main.py lines 58-64):
each selected entry's data is re-read from the source archive by name and
the entry is appended to the output archive; a directory member carries no
data.  Any failure (name not resolvable, data not readable) is caught: the
entry is omitted and a warning naming it is logged.  Returns the written
archive and the warned names. -/
def writeDiff (src : List TarEntry) : List TarEntry → List TarEntry × List (List String)
  | [] => ([], [])
  | e :: rest =>
    let r := writeDiff src rest
    match lookupMember src e.name with
    | none => (r.1, e.name :: r.2)
    | some m =>
      if m.isdir then ({ e with content := none } :: r.1, r.2)
      else
        match m.content with
        | some c => ({ e with content := some c } :: r.1, r.2)
        | none => (r.1, e.name :: r.2)

/-- Everything `mode_1_create_diff` produces: the selection state, the
written diff archive, and the warnings of the writing loop. -/
structure DiffResult where
  files_to_add : List TarEntry
  filenames_to_add : List String
  kept_layers : List String
  total_size : ℚ
  written : List TarEntry
  warnings : List (List String)

/-- `mode_1_create_diff` (src/main.py lines 30-83): one selection pass over
the new archive, then the diff archive is written from the selected entries
and the reused-layer list is persisted as the side-car JSON array. -/
def mode_1_create_diff (update_src : List TarEntry) (base_layers : Option (List String)) :
    DiffResult :=
  let st := mode_1_select base_layers update_src
  let w := writeDiff update_src st.files_to_add
  { files_to_add := st.files_to_add, filenames_to_add := st.filenames_to_add,
    kept_layers := st.kept_layers, total_size := st.total_size,
    written := w.1, warnings := w.2 }

/-- The side-car record `json.dump(kept_layers, f)` (src/main.py lines
66-67): the reused-layer list as a JSON array of strings, in list order. -/
def sideCarJson (r : DiffResult) : Json :=
  jsonArrOfList (r.kept_layers.map Json.str)

/-- `compare_images` (src/main.py lines 14-27): extract the base image's
layer info; an empty result logs an error and returns `False` without
building any diff, otherwise the diff is built and `True` returned.  An
exception from `extract_layers_info` propagates. -/
def compare_images (base_image new_image : List TarEntry) :
    Except Unit (Bool × Option DiffResult) :=
  match extract_layers_info base_image with
  | .error e => .error e
  | .ok none => .ok (false, none)
  | .ok (some layers) => .ok (true, some (mode_1_create_diff new_image (some layers)))

/-- `tar.extractall` succeeds iff every file member's data is readable;
a failure is fatal to the enclosing merge. -/
def allReadable (es : List TarEntry) : Bool :=
  es.all (fun e => e.isdir || e.content.isSome)

/-- The fatal failures of `merge_base_diff_images`, in the order the code
can raise them. -/
inductive MergeError where
  | extractionError
  | manifestMissing
  | manifestParseError
deriving DecidableEq

/-- The merged tree (src/main.py lines 105-106): base extraction copied
into the merged directory, then the diff extraction copied over it with
`dirs_exist_ok=True`, so on a path collision the diff's file overwrites the
base's. -/
def mergeTree (base_dir diff_dir : List TarEntry) : List String → Option Content :=
  fun p => (extractTree diff_dir p).orElse (fun _ => extractTree base_dir p)

/-- `merge_base_diff_images` (src/main.py lines 86-132).  Both archives are
extracted (failure is fatal); after the overlay, the diff extraction must
contain `manifest.json` (`FileNotFoundError` otherwise) and it must parse
with a `manifest[0]['Layers']` value whose `len` is defined (used only to
log the layer count).  Only then is the output archive opened and written:
the files of the merged tree, walked from the merged root — so a `.error`
result means no output archive was created at the output path.  The success
value is the merged tree's file map. -/
def merge_base_diff_images (base_tar diff_tar : List TarEntry) :
    Except MergeError (List String → Option Content) :=
  if allReadable base_tar && allReadable diff_tar then
    match extractTree diff_tar [("manifest.json")] with
    | none => .error .manifestMissing
    | some c =>
      match json_load c with
      | none => .error .manifestParseError
      | some j =>
        match manifest0Layers j with
        | none => .error .manifestParseError
        | some v =>
          if v.hasLen then .ok (mergeTree base_tar diff_tar)
          else .error .manifestParseError
  else .error .extractionError

/-! Specification-side vocabulary, for stating the claims: pure functions
of the archive, independent of the loop state. -/

/-- Names of the top-level directory entries of an archive, one per
occurrence, in member order. -/
def topDirNames (es : List TarEntry) : List String :=
  es.filterMap (fun e => if isTopDir e then some (rootSeg e) else none)

/-- The New top-level names a prefix of the archive records: top-level
directory entries whose name is not among the base layers. -/
def newNamesIn (base_layers : List String) (es : List TarEntry) : List String :=
  es.filterMap (fun e =>
    if isTopDir e && !(base_layers.contains (rootSeg e)) then some (rootSeg e) else none)

/-- The reused names a prefix of the archive records: top-level directory
entries whose name is among the base layers, one per occurrence. -/
def keptSpec (base_layers : List String) (es : List TarEntry) : List String :=
  es.filterMap (fun e =>
    if isTopDir e && base_layers.contains (rootSeg e) then some (rootSeg e) else none)

/-- Inclusion condition for an entry, stated against the archive prefix up
to and including the entry itself: its root segment is a New top-level name
recorded by that prefix, or it is a loose top-level file. -/
def includeCond (base_layers : List String) (upto : List TarEntry) (e : TarEntry) : Bool :=
  (newNamesIn base_layers upto).contains (rootSeg e) || isLooseRootFile e

/-- The stateless rendering of the selection: entry by entry, against the
prefix seen so far (`pre` is the already-consumed prefix). -/
def selectSpec (base_layers : List String) (pre : List TarEntry) :
    List TarEntry → List TarEntry
  | [] => []
  | e :: rest =>
    (if includeCond base_layers (pre ++ [e]) e then [e] else []) ++
      selectSpec base_layers (pre ++ [e]) rest

/-- Whether a selected entry survives the writing loop: its name resolves
in the source archive to a member that is a directory or has readable
data. -/
def canWrite (src : List TarEntry) (e : TarEntry) : Bool :=
  match lookupMember src e.name with
  | none => false
  | some m => m.isdir || m.content.isSome

/-- The entry as the writing loop emits it: original metadata, data
re-read from the source archive (none for a directory). -/
def writtenEntry (src : List TarEntry) (e : TarEntry) : TarEntry :=
  match lookupMember src e.name with
  | none => e
  | some m => if m.isdir then { e with content := none } else { e with content := m.content }


/-! General lemmas: characterizations of the selection loop, the writing
loop, and extraction, shared by the claim theorems below. -/

theorem mem_insertName (s : List String) (n a : String) :
    a ∈ insertName n s ↔ (a ∈ s ∨ a = n) := by
  unfold insertName
  split
  · rename_i h
    simp only [List.elem_iff] at h
    constructor
    · exact Or.inl
    · rintro (hs | rfl)
      · exact hs
      · simpa using h
  · simp

theorem newNamesIn_append_singleton (bl : List String) (pre : List TarEntry) (e : TarEntry) :
    newNamesIn bl (pre ++ [e])
      = newNamesIn bl pre
        ++ (if isTopDir e = true ∧ rootSeg e ∉ bl then [rootSeg e] else []) := by
  simp only [newNamesIn, List.filterMap_append]
  congr 1
  by_cases h : isTopDir e = true ∧ rootSeg e ∉ bl <;>
    simp [List.filterMap, h]

theorem diffStep_char (bl : List String) (st : DiffState) (pre : List TarEntry) (e : TarEntry)
    (hN : ∀ a, a ∈ st.filenames_to_add ↔ a ∈ newNamesIn bl pre) :
    (diffStep (some bl) st e).files_to_add
        = st.files_to_add ++ (if includeCond bl (pre ++ [e]) e then [e] else [])
    ∧ (diffStep (some bl) st e).kept_layers
        = st.kept_layers
          ++ (if isTopDir e = true ∧ rootSeg e ∈ bl then [rootSeg e] else [])
    ∧ (diffStep (some bl) st e).total_size
        = st.total_size + (if includeCond bl (pre ++ [e]) e then sizeMB e else 0)
    ∧ ∀ a, a ∈ (diffStep (some bl) st e).filenames_to_add ↔ a ∈ newNamesIn bl (pre ++ [e]) := by
  by_cases htd : isTopDir e = true
  · have hd : e.isdir = true := by
      have h2 := htd
      simp only [isTopDir, Bool.and_eq_true] at h2
      exact h2.1
    have hlf : isLooseRootFile e = false := by
      simp [isLooseRootFile, hd]
    by_cases hbl : rootSeg e ∈ bl
    · -- top-level directory, reused
      have hnn : newNamesIn bl (pre ++ [e]) = newNamesIn bl pre := by
        rw [newNamesIn_append_singleton]
        simp [hbl]
      by_cases hc : rootSeg e ∈ newNamesIn bl pre
      · have hin : rootSeg e ∈ st.filenames_to_add := (hN _).mpr hc
        simp [diffStep, includeCond, htd, hbl, hnn, hlf, hin, hc, hN]
      · have hin : rootSeg e ∉ st.filenames_to_add := fun h => hc ((hN _).mp h)
        simp [diffStep, includeCond, htd, hbl, hnn, hlf, hin, hc, hN]
    · -- top-level directory, new
      have hnn : newNamesIn bl (pre ++ [e])
          = newNamesIn bl pre ++ [rootSeg e] := by
        rw [newNamesIn_append_singleton]
        simp [htd, hbl]
      have hin : rootSeg e ∈ insertName (rootSeg e) st.filenames_to_add :=
        (mem_insertName _ _ _).mpr (Or.inr rfl)
      have hmem : ∀ a, a ∈ insertName (rootSeg e) st.filenames_to_add
          ↔ a ∈ newNamesIn bl (pre ++ [e]) := by
        intro a
        rw [mem_insertName, hnn]
        simp [hN a]
      simp [diffStep, includeCond, htd, hbl, hnn, hlf, hin, hmem]
  · -- not a classified entry: state set unchanged
    have hnn : newNamesIn bl (pre ++ [e]) = newNamesIn bl pre := by
      rw [newNamesIn_append_singleton]
      simp [htd]
    by_cases hc : (rootSeg e ∈ newNamesIn bl pre ∨ isLooseRootFile e = true)
    · have hin : rootSeg e ∈ st.filenames_to_add ∨ isLooseRootFile e = true := by
        rcases hc with h | h
        · exact Or.inl ((hN _).mpr h)
        · exact Or.inr h
      simp [diffStep, includeCond, htd, hnn, hc, hin, hN]
    · have hin : ¬(rootSeg e ∈ st.filenames_to_add ∨ isLooseRootFile e = true) := by
        rintro (h | h)
        · exact hc (Or.inl ((hN _).mp h))
        · exact hc (Or.inr h)
      simp [diffStep, includeCond, htd, hnn, hc, hin, hN]

theorem keptSpec_cons (bl : List String) (e : TarEntry) (es : List TarEntry) :
    keptSpec bl (e :: es)
      = (if isTopDir e = true ∧ rootSeg e ∈ bl then [rootSeg e] else []) ++ keptSpec bl es := by
  simp only [keptSpec, List.filterMap_cons]
  by_cases h : isTopDir e = true ∧ rootSeg e ∈ bl <;> simp [h]

theorem diffLoop_char (bl : List String) :
    ∀ (es : List TarEntry) (st : DiffState) (pre : List TarEntry),
    (∀ a, a ∈ st.filenames_to_add ↔ a ∈ newNamesIn bl pre) →
    (diffLoop (some bl) st es).files_to_add = st.files_to_add ++ selectSpec bl pre es
    ∧ (diffLoop (some bl) st es).kept_layers = st.kept_layers ++ keptSpec bl es
    ∧ (diffLoop (some bl) st es).total_size
        = st.total_size + ((selectSpec bl pre es).map sizeMB).sum
    ∧ ∀ a, a ∈ (diffLoop (some bl) st es).filenames_to_add ↔ a ∈ newNamesIn bl (pre ++ es) := by
  intro es
  induction es with
  | nil =>
    intro st pre hN
    simp [diffLoop, selectSpec, keptSpec, hN]
  | cons e rest ih =>
    intro st pre hN
    obtain ⟨hf, hk, ht, hn⟩ := diffStep_char bl st pre e hN
    obtain ⟨ihf, ihk, iht, ihn⟩ := ih (diffStep (some bl) st e) (pre ++ [e]) hn
    refine ⟨?_, ?_, ?_, ?_⟩
    · simp only [diffLoop, ihf, hf, selectSpec, List.append_assoc]
    · simp only [diffLoop, ihk, hk, keptSpec_cons, List.append_assoc]
    · simp only [diffLoop, iht, ht, selectSpec, List.map_append, List.sum_append]
      by_cases hic : includeCond bl (pre ++ [e]) e = true
      · simp [hic]
        ring
      · simp [hic]
    · intro a
      simpa [List.append_assoc] using ihn a

theorem mode_1_select_files (bl : List String) (es : List TarEntry) :
    (mode_1_select (some bl) es).files_to_add = selectSpec bl [] es := by
  have h := (diffLoop_char bl es
    { files_to_add := [], filenames_to_add := [], kept_layers := [], total_size := 0 } []
    (by simp [newNamesIn])).1
  simpa [mode_1_select] using h

theorem mode_1_select_kept (bl : List String) (es : List TarEntry) :
    (mode_1_select (some bl) es).kept_layers = keptSpec bl es := by
  have h := (diffLoop_char bl es
    { files_to_add := [], filenames_to_add := [], kept_layers := [], total_size := 0 } []
    (by simp [newNamesIn])).2.1
  simpa [mode_1_select] using h

theorem mode_1_select_total (bl : List String) (es : List TarEntry) :
    (mode_1_select (some bl) es).total_size = ((selectSpec bl [] es).map sizeMB).sum := by
  have h := (diffLoop_char bl es
    { files_to_add := [], filenames_to_add := [], kept_layers := [], total_size := 0 } []
    (by simp [newNamesIn])).2.2.1
  simpa [mode_1_select] using h

theorem writeDiff_char (src : List TarEntry) (files : List TarEntry) :
    writeDiff src files
      = ((files.filter (canWrite src)).map (writtenEntry src),
         (files.filter (fun e => !canWrite src e)).map (·.name)) := by
  induction files with
  | nil => simp [writeDiff]
  | cons e rest ih =>
    simp only [writeDiff, ih]
    rcases h : lookupMember src e.name with _ | m
    · have hcw : canWrite src e = false := by simp [canWrite, h]
      simp [List.filter_cons, hcw]
    · rcases hd : m.isdir with _ | _
      · rcases hc : m.content with _ | c
        · have hcw : canWrite src e = false := by simp [canWrite, h, hd, hc]
          simp [List.filter_cons, hcw, hd, hc]
        · have hcw : canWrite src e = true := by simp [canWrite, h, hd, hc]
          have hwe : writtenEntry src e = { e with content := some c } := by
            simp [writtenEntry, h, hd, hc]
          simp [List.filter_cons, hcw, hd, hc, hwe]
      · have hcw : canWrite src e = true := by simp [canWrite, h, hd]
        have hwe : writtenEntry src e = { e with content := none } := by
          simp [writtenEntry, h, hd]
        simp [List.filter_cons, hcw, hd, hwe]

theorem selectSpec_mem (bl : List String) :
    ∀ (es pre : List TarEntry) (x : TarEntry), x ∈ selectSpec bl pre es → x ∈ es := by
  intro es
  induction es with
  | nil => simp [selectSpec]
  | cons e rest ih =>
    intro pre x hx
    simp only [selectSpec, List.mem_append] at hx
    rcases hx with hx | hx
    · rcases hif : includeCond bl (pre ++ [e]) e with _ | _
      · simp [hif] at hx
      · simp [hif] at hx
        simp [hx]
    · exact List.mem_cons_of_mem _ (ih _ x hx)

theorem newNamesIn_eq_nil_of_reused (bl : List String) (es : List TarEntry)
    (h : ∀ e ∈ es, isTopDir e = true → rootSeg e ∈ bl) :
    newNamesIn bl es = [] := by
  rw [newNamesIn, List.filterMap_eq_nil_iff]
  intro e he
  by_cases htd : isTopDir e = true
  · simp [htd, h e he htd]
  · simp [htd]

theorem selectSpec_all_reused (bl : List String) :
    ∀ (es pre : List TarEntry),
    (∀ e ∈ pre, isTopDir e = true → rootSeg e ∈ bl) →
    (∀ e ∈ es, isTopDir e = true → rootSeg e ∈ bl) →
    selectSpec bl pre es = es.filter isLooseRootFile := by
  intro es
  induction es with
  | nil => simp [selectSpec]
  | cons e rest ih =>
    intro pre hp he
    have hpe : ∀ x ∈ pre ++ [e], isTopDir x = true → rootSeg x ∈ bl := by
      intro x hx
      rcases List.mem_append.mp hx with hx | hx
      · exact hp x hx
      · simp only [List.mem_singleton] at hx
        subst hx
        exact he x (List.mem_cons_self _ _)
    have hnn : newNamesIn bl (pre ++ [e]) = [] := newNamesIn_eq_nil_of_reused bl _ hpe
    have hic : includeCond bl (pre ++ [e]) e = isLooseRootFile e := by
      simp [includeCond, hnn]
    rw [selectSpec, hic, ih (pre ++ [e]) hpe (fun x hx => he x (List.mem_cons_of_mem _ hx))]
    rcases hlf : isLooseRootFile e with _ | _ <;> simp [List.filter_cons, hlf]

theorem keptSpec_eq_topDirNames (bl : List String) (es : List TarEntry)
    (h : ∀ e ∈ es, isTopDir e = true → rootSeg e ∈ bl) :
    keptSpec bl es = topDirNames es := by
  apply List.filterMap_congr
  intro e he
  by_cases htd : isTopDir e = true
  · simp [htd, h e he htd]
  · simp [htd]

theorem keptSpec_eq_nil_of_disjoint (bl : List String) (es : List TarEntry)
    (h : ∀ e ∈ es, isTopDir e = true → rootSeg e ∉ bl) :
    keptSpec bl es = [] := by
  rw [keptSpec, List.filterMap_eq_nil_iff]
  intro e he
  by_cases htd : isTopDir e = true
  · simp [htd, h e he htd]
  · simp [htd]

theorem selectSpec_all_covered (bl : List String) :
    ∀ (es pre : List TarEntry),
    (∀ i (h : i < es.length), includeCond bl (pre ++ es.take (i+1)) (es.get ⟨i, h⟩) = true) →
    selectSpec bl pre es = es := by
  intro es
  induction es with
  | nil => simp [selectSpec]
  | cons e rest ih =>
    intro pre hcov
    have h0 : includeCond bl (pre ++ [e]) e = true := by
      have h := hcov 0 (by simp)
      simpa using h
    have hrest : ∀ i (h : i < rest.length),
        includeCond bl ((pre ++ [e]) ++ rest.take (i+1)) (rest.get ⟨i, h⟩) = true := by
      intro i hi
      have h := hcov (i+1) (by simpa using Nat.succ_lt_succ hi)
      simpa [List.take_succ_cons, List.append_assoc] using h
    rw [selectSpec, h0, ih (pre ++ [e]) hrest]
    simp

theorem filter_eq_single_of_nodup_names (p : List String) (f : TarEntry → Bool)
    (hf : ∀ m, f m = true → m.name = p) :
    ∀ (A : List TarEntry), (A.map TarEntry.name).Nodup →
    ∀ e ∈ A, e.name = p → f e = true → A.filter f = [e] := by
  intro A
  induction A with
  | nil => simp
  | cons a A ih =>
    intro hnd e he hep hfe
    have hnd' : (A.map TarEntry.name).Nodup := (List.nodup_cons.mp hnd).2
    have hna : a.name ∉ A.map TarEntry.name := (List.nodup_cons.mp hnd).1
    rcases List.mem_cons.mp he with rfl | heA
    · have hA : A.filter f = [] := by
        rw [List.filter_eq_nil_iff]
        intro m hm hfm
        apply hna
        have h1 : m.name = e.name := by rw [hf m hfm, hep]
        rw [← h1]
        exact List.mem_map_of_mem _ hm
      simp [List.filter_cons, hfe, hA]
    · have hfa : f a = false := by
        rcases hb : f a with _ | _
        · rfl
        · exfalso
          apply hna
          rw [hf a hb, ← hep]
          exact List.mem_map_of_mem _ heA
      simp [List.filter_cons, hfa, ih hnd' e heA hep hfe]

theorem lookupMember_self (A : List TarEntry) (hnd : (A.map TarEntry.name).Nodup)
    (e : TarEntry) (he : e ∈ A) : lookupMember A e.name = some e := by
  have h := filter_eq_single_of_nodup_names e.name (fun m => m.name == e.name)
    (by intro m hm; simpa using hm) A hnd e he rfl (by simp)
  simp [lookupMember, h]

theorem extractTree_eq_content (A : List TarEntry) (hnd : (A.map TarEntry.name).Nodup)
    (e : TarEntry) (he : e ∈ A) (hdir : e.isdir = false) :
    extractTree A e.name = e.content := by
  have h := filter_eq_single_of_nodup_names e.name (fun m => !m.isdir && m.name == e.name)
    (by intro m hm; simp at hm; exact hm.2) A hnd e he rfl (by simp [hdir])
  simp [extractTree, h]

theorem extractTree_some_elim (W : List TarEntry) (p : List String) (c : Content)
    (h : extractTree W p = some c) :
    ∃ m ∈ W, m.isdir = false ∧ m.name = p ∧ m.content = some c := by
  rcases hg : (W.filter (fun e => !e.isdir && e.name == p)).getLast? with _ | m
  · rw [extractTree, hg] at h
    exact absurd h (by simp)
  · rw [extractTree, hg] at h
    obtain ⟨ys, hys⟩ := List.getLast?_eq_some_iff.mp hg
    have hm : m ∈ W.filter (fun e => !e.isdir && e.name == p) := by
      rw [hys]; simp
    rw [List.mem_filter] at hm
    have hpred := hm.2
    simp only [Bool.and_eq_true, Bool.not_eq_true', beq_iff_eq] at hpred
    exact ⟨m, hm.1, hpred.1, hpred.2, h⟩

theorem extractTree_mono (A W : List TarEntry) (hnd : (A.map TarEntry.name).Nodup)
    (hsub : ∀ x ∈ W, x ∈ A) (p : List String) (c : Content)
    (h : extractTree W p = some c) : extractTree A p = some c := by
  obtain ⟨m, hmW, hmd, hmp, hmc⟩ := extractTree_some_elim W p c h
  have : extractTree A m.name = m.content := extractTree_eq_content A hnd m (hsub m hmW) hmd
  rw [hmp] at this
  rw [this, hmc]

theorem mergeTree_eq_of_sub (A W : List TarEntry) (hnd : (A.map TarEntry.name).Nodup)
    (hsub : ∀ x ∈ W, x ∈ A) (p : List String) :
    mergeTree A W p = extractTree A p := by
  rw [mergeTree]
  rcases h : extractTree W p with _ | c
  · rfl
  · exact (extractTree_mono A W hnd hsub p c h).symm

theorem allReadable_mem (A : List TarEntry) (hr : allReadable A = true)
    (e : TarEntry) (he : e ∈ A) (hd : e.isdir = false) : e.content.isSome = true := by
  have h := (List.all_eq_true.mp hr) e he
  simp only [hd, Bool.false_or] at h
  exact h

theorem extract_layers_info_ok_elim (A : List TarEntry) (bl : List String)
    (h : extract_layers_info A = .ok (some bl)) :
    ∃ j v layers, extractTree A [("manifest.json")] = some (.json j)
      ∧ manifest0Layers j = some v ∧ v.asStrList = some layers
      ∧ bl = layers.map pyFirstSeg := by
  rw [extract_layers_info] at h
  rcases h1 : extractTree A [("manifest.json")] with _ | c
  · rw [h1] at h
    simp at h
  · rw [h1] at h
    rcases c with s | j
    · simp [json_load] at h
    · simp only [json_load] at h
      rcases h2 : manifest0Layers j with _ | v
      · rw [h2] at h
        simp at h
      · rw [h2] at h
        dsimp only at h
        rcases h3 : v.asStrList with _ | layers
        · rw [h3] at h
          simp at h
        · rw [h3] at h
          simp only [Except.ok.injEq, Option.some.injEq] at h
          exact ⟨j, v, layers, rfl, h2, h3, h.symm⟩

theorem asStrList_hasLen (v : Json) (l : List String) (h : v.asStrList = some l) :
    v.hasLen = true := by
  cases v <;> simp_all [Json.asStrList, Json.hasLen]

theorem merge_ok_of_manifest (B D : List TarEntry) (j v : Json)
    (hB : allReadable B = true) (hD : allReadable D = true)
    (hm : extractTree D [("manifest.json")] = some (.json j))
    (h0 : manifest0Layers j = some v) (hl : v.hasLen = true) :
    merge_base_diff_images B D = .ok (mergeTree B D) := by
  rw [merge_base_diff_images, hB, hD]
  simp only [Bool.and_self, if_true]
  rw [hm]
  simp only [json_load]
  rw [h0]
  dsimp only
  rw [hl]
  simp

theorem mode_1_create_files (es : List TarEntry) (bl : Option (List String)) :
    (mode_1_create_diff es bl).files_to_add = (mode_1_select bl es).files_to_add := rfl

theorem mode_1_create_kept (es : List TarEntry) (bl : Option (List String)) :
    (mode_1_create_diff es bl).kept_layers = (mode_1_select bl es).kept_layers := rfl

theorem mode_1_create_total (es : List TarEntry) (bl : Option (List String)) :
    (mode_1_create_diff es bl).total_size = (mode_1_select bl es).total_size := rfl

theorem mode_1_create_written (es : List TarEntry) (bl : Option (List String)) :
    (mode_1_create_diff es bl).written
      = (writeDiff es (mode_1_select bl es).files_to_add).1 := rfl

theorem mode_1_create_warnings (es : List TarEntry) (bl : Option (List String)) :
    (mode_1_create_diff es bl).warnings
      = (writeDiff es (mode_1_select bl es).files_to_add).2 := rfl

def c1file : TarEntry :=
  { name := [("a"), ("x")], isdir := false, size := 4, content := some (.raw ("d")) }

def c1arch : List TarEntry :=
  [c1file, { name := [("a")], isdir := true, size := 0, content := some (.raw ("")) }]

/-- Claim C1 is false as stated: in `c1arch` the file `a/x` precedes the
directory entry `a`; the run records `a` as a New top-level name (it is in
the final `filenames_to_add`), yet the file is not in the diff output set,
because inclusion is tested against the names recorded so far, not the
final set. -/
theorem C1_counterexample :
    rootSeg c1file ∈ (mode_1_create_diff c1arch (some [])).filenames_to_add
    ∧ c1file ∈ c1arch
    ∧ c1file ∉ (mode_1_create_diff c1arch (some [])).files_to_add := by decide

/-- Claim C1, amended: an entry of the new archive is in the diff output
set iff its root segment is a New top-level directory name recorded by the
archive prefix up to and including the entry itself (a New top-level
directory entry with that name occurs at or before it in member order), or
the entry is a root-level non-directory file.  `selectSpec` states exactly
this, entry by entry against the prefix seen so far. -/
theorem C1_selection_by_recorded_names (bl : List String) (es : List TarEntry) :
    (mode_1_create_diff es (some bl)).files_to_add = selectSpec bl [] es := by
  rw [mode_1_create_files]
  exact mode_1_select_files bl es

def c2file : TarEntry :=
  { name := [("a"), ("x")], isdir := false, size := 1, content := some (.raw ("d")) }

def c2arch : List TarEntry :=
  [c2file, { name := [("a")], isdir := true, size := 0, content := some (.raw ("")) }]

/-- Claim C2 is false as stated: `c2arch`'s only top-level layer name `a`
is disjoint from the base layer set `["z"]`, and the reused-layer list is
indeed empty, but the entry `a/x` of the archive is not included in the
diff, because it precedes the directory entry `a` in member order. -/
theorem C2_counterexample :
    (∀ e ∈ c2arch, isTopDir e = true → rootSeg e ∉ [("z")])
    ∧ (mode_1_create_diff c2arch (some [("z")])).kept_layers = []
    ∧ c2file ∈ c2arch
    ∧ c2file ∉ (mode_1_create_diff c2arch (some [("z")])).files_to_add := by decide

/-- Claim C2, amended: when the new archive's top-level layer names are
disjoint from the base layer set, the reused-layer list is empty; and if
additionally every entry satisfies the inclusion condition against its own
prefix (it is a loose root file, or a top-level directory entry with its
root segment occurs at or before it — as in archives that list each
top-level directory before that directory's contents), then every entry of
the archive is included in the diff output. -/
theorem C2_disjoint_layers (bl : List String) (es : List TarEntry)
    (hdisj : ∀ e ∈ es, isTopDir e = true → rootSeg e ∉ bl)
    (hcov : ∀ i (h : i < es.length),
      includeCond bl (es.take (i+1)) (es.get ⟨i, h⟩) = true) :
    (mode_1_create_diff es (some bl)).files_to_add = es
    ∧ (mode_1_create_diff es (some bl)).kept_layers = [] := by
  constructor
  · rw [mode_1_create_files, mode_1_select_files]
    apply selectSpec_all_covered
    intro i h
    simpa using hcov i h
  · rw [mode_1_create_kept, mode_1_select_kept]
    exact keptSpec_eq_nil_of_disjoint bl es hdisj

def c2warch : List TarEntry :=
  [ { name := [("a")], isdir := true, size := 0, content := some (.raw ("")) },
    { name := [("a"), ("x")], isdir := false, size := 7, content := some (.raw ("p")) },
    { name := [("m")], isdir := false, size := 2, content := some (.raw ("q")) } ]

/-- Witness for C2 on a concrete archive that lists the directory `a`
before its contents: everything is included and nothing is reused. -/
theorem C2_witness :
    (mode_1_create_diff c2warch (some [("z")])).files_to_add = c2warch
    ∧ (mode_1_create_diff c2warch (some [("z")])).kept_layers = [] :=
  C2_disjoint_layers [("z")] c2warch (by decide) (by decide)

/-- Claim C3: when every top-level layer directory of the new archive is
declared in the base layer set, the diff content is exactly the archive's
root-level loose files (no layer directories or their contents), and the
reused-layer list is the full list of top-level layer directory names (so
in particular, as a set, the full set of them). -/
theorem C3_all_layers_reused (bl : List String) (es : List TarEntry)
    (hall : ∀ e ∈ es, isTopDir e = true → rootSeg e ∈ bl) :
    (mode_1_create_diff es (some bl)).files_to_add = es.filter isLooseRootFile
    ∧ (mode_1_create_diff es (some bl)).kept_layers = topDirNames es := by
  constructor
  · rw [mode_1_create_files, mode_1_select_files]
    exact selectSpec_all_reused bl es [] (by simp) hall
  · rw [mode_1_create_kept, mode_1_select_kept]
    exact keptSpec_eq_topDirNames bl es hall

def c3arch : List TarEntry :=
  [ { name := [("l1")], isdir := true, size := 0, content := some (.raw ("")) },
    { name := [("l1"), ("f")], isdir := false, size := 9, content := some (.raw ("x")) },
    { name := [("manifest.json")], isdir := false, size := 2, content := some (.raw ("j")) } ]

/-- Witness for C3 on a concrete archive whose single layer `l1` is
declared in the base: only the loose root file survives and `l1` is
reused. -/
theorem C3_witness :
    (mode_1_create_diff c3arch (some [("l1")])).files_to_add
        = c3arch.filter isLooseRootFile
    ∧ (mode_1_create_diff c3arch (some [("l1")])).kept_layers = topDirNames c3arch :=
  C3_all_layers_reused [("l1")] c3arch (by decide)

/-- Claim C10: the persisted reused-layer side-car array does not collapse
duplicates.  `kept_layers` is exactly the per-occurrence, in-member-order
list of top-level directory entries whose name is in the base layer set
(`keptSpec` maps each matching member to one element), and the side-car
JSON array is that list verbatim — a name appearing as several top-level
directory entries is emitted once per occurrence. -/
theorem C10_sidecar_per_occurrence (bl : List String) (es : List TarEntry) :
    (mode_1_create_diff es (some bl)).kept_layers = keptSpec bl es
    ∧ sideCarJson (mode_1_create_diff es (some bl))
        = jsonArrOfList ((keptSpec bl es).map Json.str) := by
  have h : (mode_1_create_diff es (some bl)).kept_layers = keptSpec bl es := by
    rw [mode_1_create_kept]
    exact mode_1_select_kept bl es
  exact ⟨h, by rw [sideCarJson, h]⟩

theorem merge_ok_elim (B D : List TarEntry) (t : List String → Option Content)
    (hm : merge_base_diff_images B D = .ok t) : t = mergeTree B D := by
  rw [merge_base_diff_images] at hm
  split at hm
  · split at hm
    · exact absurd hm (by simp)
    · split at hm
      · exact absurd hm (by simp)
      · split at hm
        · exact absurd hm (by simp)
        · split at hm
          · simpa using hm.symm
          · exact absurd hm (by simp)
  · exact absurd hm (by simp)

/-- Claim C5: collision precedence in merge.  When both the base and the
diff contain a file at the same path, the merged tree holds the diff's
data at that path: the diff extraction is copied into the merged directory
after the base extraction, so its files win every collision. -/
theorem C5_collision_precedence (B D : List TarEntry) (x : List String)
    (cOld cNew : Content) (t : List String → Option Content)
    (_hB : extractTree B x = some cOld) (hD : extractTree D x = some cNew)
    (hm : merge_base_diff_images B D = .ok t) :
    t x = some cNew := by
  rw [merge_ok_elim B D t hm, mergeTree, hD]
  rfl

def c5base : List TarEntry :=
  [ { name := [("x")], isdir := false, size := 3, content := some (.raw ("old")) } ]

def c5diff : List TarEntry :=
  [ { name := [("x")], isdir := false, size := 3, content := some (.raw ("new")) },
    { name := [("manifest.json")], isdir := false, size := 2,
      content := some (.json (Json.arrCons
        (Json.objCons ("Layers") Json.arrNil Json.objNil) Json.arrNil)) } ]

/-- Witness for C5: base and diff both hold the file `x`; the merge
succeeds and yields the diff's data `new` at `x`. -/
theorem C5_witness : mergeTree c5base c5diff [("x")] = some (.raw ("new")) :=
  C5_collision_precedence c5base c5diff [("x")] (.raw ("old")) (.raw ("new"))
    (mergeTree c5base c5diff) (by decide) (by decide) rfl

/-- Claim C6: a base archive with no manifest file makes
`extract_layers_info` return the empty dict (an error is logged), and
`compare_images` then returns `False` without ever invoking the diff
builder — no diff archive and no side-car record are produced (the
returned diff component is `none`). -/
theorem C6_missing_base_manifest (base_image new_image : List TarEntry)
    (h : extractTree base_image [("manifest.json")] = none) :
    extract_layers_info base_image = .ok none
    ∧ compare_images base_image new_image = .ok (false, none) := by
  have h1 : extract_layers_info base_image = .ok none := by
    rw [extract_layers_info, h]
  refine ⟨h1, ?_⟩
  rw [compare_images, h1]

def c6base : List TarEntry :=
  [ { name := [("layer1")], isdir := true, size := 0, content := some (.raw ("")) } ]

def c6new : List TarEntry :=
  [ { name := [("f")], isdir := false, size := 1, content := some (.raw ("y")) } ]

/-- Witness for C6 on a concrete base archive without `manifest.json`. -/
theorem C6_witness :
    extract_layers_info c6base = .ok none
    ∧ compare_images c6base c6new = .ok (false, none) :=
  C6_missing_base_manifest c6base c6new (by decide)

/-- Claim C7: a single selected entry whose data cannot be re-read is
non-fatal.  If exactly one selected entry fails the write-back test, the
warning list names exactly that entry, the written diff archive is the
write-back of all selected entries that pass, and every other selected
entry is present in the written archive. -/
theorem C7_entry_read_failure (A : List TarEntry) (bl : List String) (bad : TarEntry)
    (h : (mode_1_create_diff A (some bl)).files_to_add.filter
          (fun e => !canWrite A e) = [bad]) :
    (mode_1_create_diff A (some bl)).warnings = [bad.name]
    ∧ (mode_1_create_diff A (some bl)).written
        = ((mode_1_create_diff A (some bl)).files_to_add.filter
            (canWrite A)).map (writtenEntry A)
    ∧ ∀ e ∈ (mode_1_create_diff A (some bl)).files_to_add, e ≠ bad →
        writtenEntry A e ∈ (mode_1_create_diff A (some bl)).written := by
  have hchar := writeDiff_char A (mode_1_select (some bl) A).files_to_add
  have hwr : (mode_1_create_diff A (some bl)).written
      = ((mode_1_create_diff A (some bl)).files_to_add.filter
          (canWrite A)).map (writtenEntry A) := by
    rw [mode_1_create_written, hchar, mode_1_create_files]
  have hwarn : (mode_1_create_diff A (some bl)).warnings
      = ((mode_1_create_diff A (some bl)).files_to_add.filter
          (fun e => !canWrite A e)).map (·.name) := by
    rw [mode_1_create_warnings, hchar, mode_1_create_files]
  refine ⟨?_, hwr, ?_⟩
  · rw [hwarn, h]
    simp
  · intro e he hne
    have hcw : canWrite A e = true := by
      by_contra hc
      have hmem : e ∈ (mode_1_create_diff A (some bl)).files_to_add.filter
          (fun e => !canWrite A e) := by
        refine List.mem_filter.mpr ⟨he, ?_⟩
        simp only [Bool.not_eq_true] at hc
        simp [hc]
      rw [h] at hmem
      simp only [List.mem_singleton] at hmem
      exact hne hmem
    rw [hwr]
    exact List.mem_map_of_mem _ (List.mem_filter.mpr ⟨he, hcw⟩)

def c7bad : TarEntry :=
  { name := [("x")], isdir := false, size := 1, content := none }

def c7good : TarEntry :=
  { name := [("y")], isdir := false, size := 2, content := some (.raw ("ok")) }

def c7arch : List TarEntry := [c7bad, c7good]

/-- Witness for C7: the archive holds two loose root files, the first
unreadable; the run warns about `x` and the written diff still contains
`y`. -/
theorem C7_witness :
    (mode_1_create_diff c7arch (some [])).warnings = [c7bad.name]
    ∧ (mode_1_create_diff c7arch (some [])).written
        = ((mode_1_create_diff c7arch (some [])).files_to_add.filter
            (canWrite c7arch)).map (writtenEntry c7arch)
    ∧ writtenEntry c7arch c7good ∈ (mode_1_create_diff c7arch (some [])).written := by
  have h := C7_entry_read_failure c7arch [] c7bad (by decide)
  exact ⟨h.1, h.2.1, h.2.2 c7good (by decide) (by decide)⟩

/-- Claim C9: a diff extraction without a manifest file is fatal to the
merge — it stops with the `manifestMissing` error, and since the output
archive is opened only after the manifest check, no output archive value
exists (an `.error` result carries none). -/
theorem C9_merge_missing_manifest (B D : List TarEntry)
    (hB : allReadable B = true) (hD : allReadable D = true)
    (h : extractTree D [("manifest.json")] = none) :
    merge_base_diff_images B D = .error .manifestMissing := by
  rw [merge_base_diff_images, hB, hD]
  simp only [Bool.and_self, if_true]
  rw [h]

def c9base : List TarEntry :=
  [ { name := [("f")], isdir := false, size := 1, content := some (.raw ("b")) } ]

def c9diff : List TarEntry :=
  [ { name := [("g")], isdir := false, size := 1, content := some (.raw ("d")) } ]

/-- Witness for C9 on concrete readable archives whose diff lacks
`manifest.json`. -/
theorem C9_witness : merge_base_diff_images c9base c9diff = .error .manifestMissing :=
  C9_merge_missing_manifest c9base c9diff (by decide) (by decide) (by decide)

theorem writtenEntry_size (src : List TarEntry) (e : TarEntry) :
    (writtenEntry src e).size = e.size := by
  rw [writtenEntry]
  rcases lookupMember src e.name with _ | m
  · rfl
  · by_cases hd : m.isdir = true <;> simp [hd]

def c8arch : List TarEntry :=
  [ { name := [("x")], isdir := false, size := 5, content := none } ]

/-- Claim C8 is false as stated: in `c8arch` the single loose root file
`x` (5 bytes) is selected, so the reported total is 5/1e6 MB, but its data
cannot be re-read, so the written diff archive is empty — the total counts
an entry that does not end up in the output. -/
theorem C8_counterexample :
    (mode_1_create_diff c8arch (some [])).written = []
    ∧ (mode_1_create_diff c8arch (some [])).total_size
        ≠ (((mode_1_create_diff c8arch (some [])).written).map sizeMB).sum := by
  have hw : (mode_1_create_diff c8arch (some [])).written = [] := by decide
  refine ⟨hw, ?_⟩
  have ht : (mode_1_create_diff c8arch (some [])).total_size
      = ((selectSpec [] [] c8arch).map sizeMB).sum := by
    rw [mode_1_create_total]
    exact mode_1_select_total [] c8arch
  have hsel : selectSpec [] [] c8arch = c8arch := by decide
  rw [ht, hsel, hw]
  simp [c8arch, sizeMB]

/-- Claim C8, amended: the reported total equals the sum of `size / 1e6`
over the entries selected for the diff; when every selected entry's data
can be re-read (no per-entry write failure), this is exactly the sum over
the entries of the written diff archive.  A selected entry whose data
cannot be re-read is still counted in the total but omitted from the
output (see the counterexample). -/
theorem C8_size_accounting (A : List TarEntry) (bl : List String)
    (h : ∀ e ∈ (mode_1_create_diff A (some bl)).files_to_add, canWrite A e = true) :
    (mode_1_create_diff A (some bl)).total_size
      = (((mode_1_create_diff A (some bl)).written).map sizeMB).sum := by
  have hchar := writeDiff_char A (mode_1_select (some bl) A).files_to_add
  have hwr : (mode_1_create_diff A (some bl)).written
      = ((mode_1_create_diff A (some bl)).files_to_add.filter
          (canWrite A)).map (writtenEntry A) := by
    rw [mode_1_create_written, hchar, mode_1_create_files]
  have hfull : (mode_1_create_diff A (some bl)).files_to_add.filter (canWrite A)
      = (mode_1_create_diff A (some bl)).files_to_add :=
    List.filter_eq_self.mpr h
  rw [hwr, hfull, List.map_map]
  have hsz : ∀ e ∈ (mode_1_create_diff A (some bl)).files_to_add,
      (sizeMB ∘ writtenEntry A) e = sizeMB e := by
    intro e _
    simp [Function.comp, sizeMB, writtenEntry_size]
  rw [List.map_congr_left hsz]
  have ht : (mode_1_create_diff A (some bl)).total_size
      = ((selectSpec bl [] A).map sizeMB).sum := by
    rw [mode_1_create_total]
    exact mode_1_select_total bl A
  rw [ht, mode_1_create_files, mode_1_select_files]

def c8warch : List TarEntry :=
  [ { name := [("y")], isdir := false, size := 2, content := some (.raw ("ab")) },
    { name := [("z")], isdir := false, size := 3, content := some (.raw ("cde")) } ]

/-- Witness for C8 (amended) on a fully readable archive of two loose
root files of known sizes. -/
theorem C8_witness :
    (mode_1_create_diff c8warch (some [])).total_size
      = (((mode_1_create_diff c8warch (some [])).written).map sizeMB).sum :=
  C8_size_accounting c8warch [] (by decide)

/-- Claim C4: round trip.  For an image archive `A` that is well formed —
member names unique, every member readable, `extract_layers_info` succeeds
on it, and every top-level layer directory declared in its own manifest —
diffing `A` against its own layer set classifies every layer as Reused,
keeps only the loose root files in the diff, and merging `A` with that
written diff succeeds and reconstructs a tree file-for-file identical to
`A`'s extracted tree: overlaying the diff over `A`'s extraction changes
nothing. -/
theorem C4_round_trip (A : List TarEntry) (bl : List String)
    (hnd : (A.map TarEntry.name).Nodup)
    (hr : allReadable A = true)
    (hli : extract_layers_info A = .ok (some bl))
    (hall : ∀ e ∈ A, isTopDir e = true → rootSeg e ∈ bl) :
    (mode_1_create_diff A (some bl)).kept_layers = topDirNames A
    ∧ (mode_1_create_diff A (some bl)).files_to_add = A.filter isLooseRootFile
    ∧ merge_base_diff_images A (mode_1_create_diff A (some bl)).written
        = .ok (mergeTree A (mode_1_create_diff A (some bl)).written)
    ∧ ∀ p, mergeTree A (mode_1_create_diff A (some bl)).written p = extractTree A p := by
  have hkept : (mode_1_create_diff A (some bl)).kept_layers = topDirNames A := by
    rw [mode_1_create_kept, mode_1_select_kept]
    exact keptSpec_eq_topDirNames bl A hall
  have hfiles : (mode_1_create_diff A (some bl)).files_to_add
      = A.filter isLooseRootFile := by
    rw [mode_1_create_files, mode_1_select_files]
    exact selectSpec_all_reused bl A [] (by simp) hall
  have hFsubA : ∀ x ∈ A.filter isLooseRootFile, x ∈ A :=
    fun x hx => (List.mem_filter.mp hx).1
  have hFnodir : ∀ x ∈ A.filter isLooseRootFile, x.isdir = false := by
    intro x hx
    have h2 := (List.mem_filter.mp hx).2
    simp only [isLooseRootFile, Bool.and_eq_true, Bool.not_eq_true'] at h2
    exact h2.2
  have hwritten : (mode_1_create_diff A (some bl)).written = A.filter isLooseRootFile := by
    rw [mode_1_create_written, writeDiff_char, mode_1_select_files]
    dsimp only
    rw [show selectSpec bl [] A = A.filter isLooseRootFile from
      selectSpec_all_reused bl A [] (by simp) hall]
    have hcw : ∀ x ∈ A.filter isLooseRootFile, canWrite A x = true := by
      intro x hx
      have hl := lookupMember_self A hnd x (hFsubA x hx)
      have hro := allReadable_mem A hr x (hFsubA x hx) (hFnodir x hx)
      simp [canWrite, hl, hro]
    rw [List.filter_eq_self.mpr hcw]
    have hwe : ∀ x ∈ A.filter isLooseRootFile, writtenEntry A x = x := by
      intro x hx
      have hl := lookupMember_self A hnd x (hFsubA x hx)
      rw [writtenEntry, hl]
      dsimp only
      rw [if_neg (by simp [hFnodir x hx])]
    rw [List.map_congr_left hwe]
    exact List.map_id _
  obtain ⟨j, v, layers, hm, h0, hsl, _⟩ := extract_layers_info_ok_elim A bl hli
  obtain ⟨me, hmeA, hmed, hmep, hmec⟩ := extractTree_some_elim A _ _ hm
  have hmeF : me ∈ A.filter isLooseRootFile := by
    refine List.mem_filter.mpr ⟨hmeA, ?_⟩
    simp [isLooseRootFile, hmed, hmep]
  have hndF : ((A.filter isLooseRootFile).map TarEntry.name).Nodup :=
    List.Nodup.sublist (List.Sublist.map TarEntry.name (List.filter_sublist A)) hnd
  have hWman : extractTree (A.filter isLooseRootFile) [("manifest.json")]
      = some (.json j) := by
    have h2 := extractTree_eq_content (A.filter isLooseRootFile) hndF me hmeF hmed
    rw [hmep] at h2
    rw [h2, hmec]
  have hrF : allReadable (A.filter isLooseRootFile) = true := by
    rw [allReadable, List.all_eq_true]
    intro x hx
    have := allReadable_mem A hr x (hFsubA x hx) (hFnodir x hx)
    simp [this]
  have hlen : v.hasLen = true := asStrList_hasLen v layers hsl
  have hmerge := merge_ok_of_manifest A (A.filter isLooseRootFile) j v hr hrF hWman h0 hlen
  refine ⟨hkept, hfiles, ?_, ?_⟩
  · rw [hwritten]
    exact hmerge
  · intro p
    rw [hwritten]
    exact mergeTree_eq_of_sub A (A.filter isLooseRootFile) hnd hFsubA p

def c4arch : List TarEntry :=
  [ { name := [("l1")], isdir := true, size := 0, content := some (.raw ("")) },
    { name := [("l1"), ("f")], isdir := false, size := 6, content := some (.raw ("data")) },
    { name := [("manifest.json")], isdir := false, size := 2,
      content := some (.json (Json.arrCons
        (Json.objCons ("Layers")
          (Json.arrCons (Json.str ("l1/layer.tar")) Json.arrNil) Json.objNil)
        Json.arrNil)) } ]

/-- Witness for C4 on a concrete one-layer image archive whose manifest
declares `l1/layer.tar`: the layer is reused, the diff keeps only the two
loose root files, the merge succeeds, and the merged tree agrees with
`A`'s own tree at the layer file `l1/f`. -/
theorem C4_witness :
    (mode_1_create_diff c4arch (some [("l1")])).kept_layers = topDirNames c4arch
    ∧ (mode_1_create_diff c4arch (some [("l1")])).files_to_add
        = c4arch.filter isLooseRootFile
    ∧ merge_base_diff_images c4arch (mode_1_create_diff c4arch (some [("l1")])).written
        = .ok (mergeTree c4arch (mode_1_create_diff c4arch (some [("l1")])).written)
    ∧ mergeTree c4arch (mode_1_create_diff c4arch (some [("l1")])).written
        [("l1"), ("f")] = extractTree c4arch [("l1"), ("f")] := by
  have h := C4_round_trip c4arch [("l1")] (by decide) (by decide) rfl (by decide)
  exact ⟨h.1, h.2.1, h.2.2.1, h.2.2.2 [("l1"), ("f")]⟩
